import Mathlib

/-!
# ctv: a two-pane terminal file browser (`src/main.cpp`)

Shallow embedding of the pane state of `FileBrowser`, `FileViewer` and of the
key dispatch of `Application::run`, followed by theorems about them.

Conventions of the embedding

* `int` is a 32-bit two's-complement integer.  A value of type `int` is an
  `Int`; every `int` operation of the source is followed by `wrapInt`.  The
  largest `int`, 2^31 - 1, is written 2147483647 in the statements.
* `size_t` / `uintmax_t` are 64-bit unsigned.  A mixed comparison
  `int < size_t` converts the `int` with `toSizeT` (reduction mod 2^64) and a
  subtraction of two `size_t` is `subSizeT` (again mod 2^64).
* `static_cast<int>(x)` of a `size_t` is `castInt` (keep the low 32 bits, read
  them as signed).
* `std::vector<T>` is `List T`, `size()` is `List.length`.
* Drawing (`werase`, `box`, `mvwprintw`, `wrefresh`, ...) does not touch the
  pane state and is left out; `getmaxyx(window, height, width)` is the
  parameter `height` of `display`.
* A C++ exception leaves the object as it was at the `throw`; an operation
  that can throw returns the state at that point together with an `Except`.
-/

namespace Ctv

/-! ## Machine integers -/

/-- Result of an `int` operation: reduction into `[-2^31, 2^31)`. -/
def wrapInt (x : Int) : Int := (x + 2147483648) % 4294967296 - 2147483648

/-- Conversion of an `int` to `size_t` (usual arithmetic conversions). -/
def toSizeT (x : Int) : Nat := (x % 18446744073709551616).toNat

/-- Subtraction `a - b` of two `size_t` values. -/
def subSizeT (a b : Nat) : Nat :=
  (a % 18446744073709551616 + 18446744073709551616 - b % 18446744073709551616)
    % 18446744073709551616

/-- The conversion `static_cast<int>(x)` of a `size_t`. -/
def castInt (x : Nat) : Int := wrapInt (x : Int)

/-! ## FileViewer -/

/-- Data members of `class FileViewer` (the `WINDOW*` apart). -/
structure FileViewer where
  filePath : String
  lines : List String
  startLine : Int
  maxDisplayLines : Int
  deriving DecidableEq, Repr

namespace FileViewer

/-- State built by `FileViewer(WINDOW* win)`. -/
def init : FileViewer :=
  { filePath := "", lines := [], startLine := 0, maxDisplayLines := 0 }

/-- Member `loadFile`: `readLines path` is `none` when `std::ifstream file(path)`
is not open, and the lines read by `std::getline` otherwise. -/
def loadFile (readLines : String → Option (List String)) (path : String)
    (v : FileViewer) : Bool × FileViewer :=
  let v1 := { v with filePath := path, lines := [], startLine := 0 }
  match readLines path with
  | none => (false, v1)
  | some ls => (true, { v1 with lines := ls })

/-- Member `display`: the only state change is `maxDisplayLines = height - 3`. -/
def display (height : Int) (v : FileViewer) : FileViewer :=
  { v with maxDisplayLines := wrapInt (height - 3) }

/-- Member `scrollUp`. -/
def scrollUp (height : Int) (v : FileViewer) : FileViewer :=
  if v.startLine > 0 then
    display height { v with startLine := wrapInt (v.startLine - 1) }
  else v

/-- Member `scrollDown`: the comparison is made in `size_t`. -/
def scrollDown (height : Int) (v : FileViewer) : FileViewer :=
  if toSizeT v.startLine < subSizeT v.lines.length (toSizeT v.maxDisplayLines) then
    display height { v with startLine := wrapInt (v.startLine + 1) }
  else v

/-- Member `pageUp`. -/
def pageUp (height : Int) (v : FileViewer) : FileViewer :=
  display height
    { v with startLine := max 0 (wrapInt (v.startLine - v.maxDisplayLines)) }

/-- Member `pageDown`. -/
def pageDown (height : Int) (v : FileViewer) : FileViewer :=
  let s := min (castInt (subSizeT v.lines.length (toSizeT v.maxDisplayLines)))
               (wrapInt (v.startLine + v.maxDisplayLines))
  display height { v with startLine := if s < 0 then 0 else s }

end FileViewer

/-- The four scrolling actions of the content pane. -/
inductive ViewerAction where
  | scrollUp
  | scrollDown
  | pageUp
  | pageDown
  deriving DecidableEq, Repr

/-- One scrolling action applied to the viewer. -/
def ViewerAction.apply (height : Int) (v : FileViewer) : ViewerAction → FileViewer
  | .scrollUp => v.scrollUp height
  | .scrollDown => v.scrollDown height
  | .pageUp => v.pageUp height
  | .pageDown => v.pageDown height

/-- A finite sequence of scrolling actions, applied left to right. -/
def runViewer (height : Int) (v : FileViewer) (as : List ViewerAction) : FileViewer :=
  as.foldl (fun s a => a.apply height s) v

/-! ## Strings and file names -/

/-- The `char` sequence of a `std::string`: the UTF-8 bytes of the text. -/
def bytes (s : String) : List Nat :=
  (s.data.flatMap String.utf8EncodeChar).map UInt8.toNat

/-- Lexicographic comparison of two byte sequences. -/
def bytesLt : List Nat → List Nat → Bool
  | _, [] => false
  | [], _ :: _ => true
  | a :: as, b :: bs =>
    if a < b then true else if b < a then false else bytesLt as bs

/-- Operator `<` of `std::string`: byte-wise lexicographic order. -/
def strLt (a b : String) : Bool := bytesLt (bytes a) (bytes b)

/-- The part of a character sequence that starts at its rightmost period
(empty when there is none). -/
def lastDotSuffix : List Char → List Char
  | [] => []
  | c :: cs =>
    if '.' ∈ cs then lastDotSuffix cs else if c = '.' then c :: cs else []

/-- `std::filesystem::path::extension()` of a file name, as the C++ standard
defines it: empty for `.` and `..`, a period in first position does not start
an extension, otherwise everything from the rightmost period on. -/
def extension (filename : String) : String :=
  if filename = "." ∨ filename = ".." then ""
  else
    match filename.data with
    | [] => ""
    | _ :: rest => String.mk (lastDotSuffix rest)

/-- Function `initSupportedExtensions`: the set, in insertion order. -/
def initSupportedExtensions : List String :=
  [".txt", ".md", ".markdown", ".conf", ".ini", ".cfg", ".properties", ".sh",
   ".bash", ".ksh", ".csh", ".zsh", ".c", ".h", ".cpp", ".hpp", ".cc",
   ".cxx", ".cs", ".java", ".py", ".rb", ".js", ".ts", ".php", ".pl", ".pm",
   ".go", ".rs", ".swift", ".lua", ".r", ".scala", ".groovy", ".kt", ".dart",
   ".html", ".htm", ".css", ".scss", ".sass", ".less", ".json", ".xml",
   ".svg", ".jsx", ".tsx", ".csv", ".yaml", ".yml", ".toml", ".rst", ".adoc",
   ".tex", ".man", ".pro", ".cmake", ".make", ".mk", ".mak", ".gradle",
   ".pom", ".log", ".diff", ".patch", ".sql"]

/-- The test `supportedExtensions.find(ext) != supportedExtensions.end()`. -/
def isSupported (ext : String) : Bool := decide (ext ∈ initSupportedExtensions)

/-! ## The filesystem seen by the program -/

/-- What `is_directory()` / `is_regular_file()` say about a directory child. -/
inductive ChildKind where
  | directory
  | regular
  | other
  deriving DecidableEq, Repr

/-- One element produced by `fs::directory_iterator`: file name, kind and
`file_size()`. -/
structure DirChild where
  name : String
  kind : ChildKind
  size : Nat
  deriving DecidableEq, Repr

/-- A `filesystem_error` thrown while a directory is enumerated.  `visited`
are the children the loop of `refreshEntries` handled completely before the
throw, in order: none when `fs::directory_iterator(p)` itself throws; the
child whose `is_directory()`, `is_regular_file()` or `file_size()` throws is
not among them, and an iterator increment throws after the child before it
was handled.  `what` is the message of the exception. -/
structure ListFailure where
  visited : List DirChild
  what : String
  deriving DecidableEq, Repr

/-- The services of `std::filesystem` and `std::ifstream` the program calls.
`listDir p` is the complete enumeration `fs::directory_iterator(p)` with the
status queries the loop makes, or the failure that interrupts it;
`parentPath p` is `fs::path(p).parent_path().string()`; `joinPath p n` is
`(fs::path(p) / n).string()`; `readLines p` is the content read by
`std::getline`, or `none` when the stream is not open. -/
structure FileSystem where
  listDir : String → Except ListFailure (List DirChild)
  parentPath : String → String
  joinPath : String → String → String
  readLines : String → Option (List String)

/-- How an operation can fail to return: a `filesystem_error` is thrown, or
`entries[selectedIndex]` is evaluated outside the vector (undefined). -/
inductive Fault where
  | filesystemError (what : String)
  | indexOutOfRange
  deriving DecidableEq, Repr

/-! ## FileBrowser -/

/-- Struct `FileEntry`. -/
structure FileEntry where
  name : String
  isDirectory : Bool
  size : Nat
  deriving DecidableEq, Repr

/-- The comparison lambda passed to `std::sort`. -/
def entryLess (a b : FileEntry) : Bool :=
  if a.isDirectory != b.isDirectory then
    -- `a.isDirectory > b.isDirectory` on `bool`
    a.isDirectory && !b.isDirectory
  else strLt a.name b.name

/-- Insertion of one entry in front of the first entry it is less than. -/
def insertEntry (x : FileEntry) : List FileEntry → List FileEntry
  | [] => [x]
  | y :: ys => if entryLess x y then x :: y :: ys else y :: insertEntry x ys

/-- Model of `std::sort(first, last, entryLess)`: an insertion sort.  The
standard promises a permutation of the range that is ordered by the
comparison, and nothing about the algorithm. -/
def stdSort : List FileEntry → List FileEntry
  | [] => []
  | x :: xs => insertEntry x (stdSort xs)

/-- Body of the enumeration loop of `refreshEntries` for one child. -/
def pushChild (entries : List FileEntry) (c : DirChild) : List FileEntry :=
  match c.kind with
  | .directory => entries ++ [⟨c.name, true, 0⟩]
  | .regular =>
    if isSupported (extension c.name) then entries ++ [⟨c.name, false, c.size⟩]
    else entries
  | .other => entries

/-- The call `std::sort(entries.begin() + 1, entries.end(), ...)`. -/
def sortFromSecond : List FileEntry → List FileEntry
  | [] => []
  | e :: rest => e :: stdSort rest

/-- The vector `entries` that `refreshEntries` builds from the children of
the current directory. -/
def buildEntries (children : List DirChild) : List FileEntry :=
  sortFromSecond (children.foldl pushChild [⟨"..", true, 0⟩])

/-- Data members of `class FileBrowser` (the `WINDOW*` apart;
`supportedExtensions` is the constant `initSupportedExtensions`). -/
structure FileBrowser where
  currentPath : String
  entries : List FileEntry
  selectedIndex : Int
  startIndex : Int
  maxDisplayEntries : Int
  deriving DecidableEq, Repr

namespace FileBrowser

/-- Member `refreshEntries`.  When the enumeration throws, `entries` holds
the parent entry followed by what was pushed for the children handled so
far; the sort and the adjustment of `selectedIndex` are not reached. -/
def refreshEntries (fs : FileSystem) (b : FileBrowser) :
    FileBrowser × Except Fault Unit :=
  match fs.listDir b.currentPath with
  | .error f =>
    ({ b with entries := f.visited.foldl pushChild [⟨"..", true, 0⟩] },
     .error (.filesystemError f.what))
  | .ok children =>
    let es := buildEntries children
    let sel1 :=
      if toSizeT b.selectedIndex ≥ es.length then castInt (subSizeT es.length 1)
      else b.selectedIndex
    let sel2 := if sel1 < 0 then 0 else sel1
    ({ b with entries := es, selectedIndex := sel2 }, .ok ())

/-- Constructor `FileBrowser(WINDOW* win)`, `cwd` being `fs::current_path()`. -/
def init (fs : FileSystem) (cwd : String) : FileBrowser × Except Fault Unit :=
  refreshEntries fs
    { currentPath := cwd, entries := [], selectedIndex := 0, startIndex := 0,
      maxDisplayEntries := 0 }

/-- Member `display`: sets `maxDisplayEntries` and moves `startIndex`. -/
def display (height : Int) (b : FileBrowser) : FileBrowser :=
  let m := wrapInt (height - 3)
  let b1 := { b with maxDisplayEntries := m }
  if b1.selectedIndex < b1.startIndex then
    { b1 with startIndex := b1.selectedIndex }
  else if b1.selectedIndex ≥ wrapInt (b1.startIndex + m) then
    { b1 with startIndex := wrapInt (wrapInt (b1.selectedIndex - m) + 1) }
  else b1

/-- Member `moveUp`. -/
def moveUp (height : Int) (b : FileBrowser) : FileBrowser :=
  if b.selectedIndex > 0 then
    display height { b with selectedIndex := wrapInt (b.selectedIndex - 1) }
  else b

/-- Member `moveDown`: the comparison is made in `size_t`. -/
def moveDown (height : Int) (b : FileBrowser) : FileBrowser :=
  if toSizeT b.selectedIndex < subSizeT b.entries.length 1 then
    display height { b with selectedIndex := wrapInt (b.selectedIndex + 1) }
  else b

/-- The directory `enter` moves to when the selected entry is the directory
`name`. -/
def enterTarget (fs : FileSystem) (currentPath name : String) : String :=
  if name = ".." then
    let parent := fs.parentPath currentPath
    if parent ≠ "" then parent else currentPath
  else fs.joinPath currentPath name

/-- Member `enter`. -/
def enter (fs : FileSystem) (height : Int) (b : FileBrowser) :
    FileBrowser × Except Fault Bool :=
  if b.entries.isEmpty then (b, .ok false)
  else
    match b.entries.get? (toSizeT b.selectedIndex) with
    | none => (b, .error .indexOutOfRange)
    | some selected =>
      if selected.isDirectory then
        let b1 := { b with currentPath := enterTarget fs b.currentPath selected.name,
                           selectedIndex := 0, startIndex := 0 }
        match refreshEntries fs b1 with
        | (b2, .error e) => (b2, .error e)
        | (b2, .ok ()) => (display height b2, .ok false)
      else (b, .ok true)

/-- Member `getSelectedFilePath`. -/
def getSelectedFilePath (fs : FileSystem) (b : FileBrowser) : String :=
  if b.selectedIndex ≥ 0 ∧ toSizeT b.selectedIndex < b.entries.length then
    match b.entries.get? (toSizeT b.selectedIndex) with
    | some e => if !e.isDirectory then fs.joinPath b.currentPath e.name else ""
    | none => ""
  else ""

end FileBrowser

/-- The three directory-pane actions bound to keys. -/
inductive BrowserAction where
  | moveUp
  | moveDown
  | enter
  deriving DecidableEq, Repr

/-- One directory-pane action; for `enter` the state is the one the pane is
left in, whether `enter` returned or threw. -/
def BrowserAction.apply (fs : FileSystem) (height : Int) (b : FileBrowser) :
    BrowserAction → FileBrowser
  | .moveUp => b.moveUp height
  | .moveDown => b.moveDown height
  | .enter => (b.enter fs height).1

/-- A finite sequence of directory-pane actions, applied left to right. -/
def runBrowser (fs : FileSystem) (height : Int) (b : FileBrowser)
    (as : List BrowserAction) : FileBrowser :=
  as.foldl (fun s a => a.apply fs height s) b

/-! ## Application -/

/-- Key code of the tab character. -/
def KEY_TAB : Int := 9
/-- Key code of the line feed sent by the Enter key. -/
def KEY_ENTER_LF : Int := 10
/-- Value of `KEY_DOWN` in `ncurses.h` (octal 0402). -/
def KEY_DOWN : Int := 258
/-- Value of `KEY_UP` in `ncurses.h` (octal 0403). -/
def KEY_UP : Int := 259
/-- Value of `KEY_NPAGE` in `ncurses.h` (octal 0522). -/
def KEY_NPAGE : Int := 338
/-- Value of `KEY_PPAGE` in `ncurses.h` (octal 0523). -/
def KEY_PPAGE : Int := 339
/-- Character code of `q`. -/
def KEY_q : Int := 113
/-- Character code of `Q`. -/
def KEY_Q : Int := 81

/-- Data members of `class Application` (the two `WINDOW*` apart). -/
structure Application where
  browser : FileBrowser
  viewer : FileViewer
  running : Bool
  browserFocus : Bool
  deriving DecidableEq, Repr

namespace Application

/-- Constructor `Application()`: the members `running = true` and
`browserFocus = true`, the browser built in `cwd`, a fresh viewer, and the
first `browser->display()`.  When the constructor of the browser throws, the
exception leaves `Application()` before that `display`. -/
def init (fs : FileSystem) (height : Int) (cwd : String) :
    Application × Except Fault Unit :=
  match FileBrowser.init fs cwd with
  | (b, .error e) =>
    ({ browser := b, viewer := FileViewer.init, running := true, browserFocus := true },
     .error e)
  | (b, .ok ()) =>
    ({ browser := b.display height, viewer := FileViewer.init, running := true,
       browserFocus := true }, .ok ())

/-- The `case 10` arm of the `switch` in `run`. -/
def onEnter (fs : FileSystem) (height : Int) (app : Application) :
    Application × Except Fault Unit :=
  if app.browserFocus then
    match app.browser.enter fs height with
    | (b, .error e) => ({ app with browser := b }, .error e)
    | (b, .ok false) => ({ app with browser := b }, .ok ())
    | (b, .ok true) =>
      let filePath := b.getSelectedFilePath fs
      if filePath ≠ "" then
        match app.viewer.loadFile fs.readLines filePath with
        | (true, v) => ({ app with browser := b, viewer := v.display height }, .ok ())
        | (false, v) => ({ app with browser := b, viewer := v }, .ok ())
      else ({ app with browser := b }, .ok ())
  else (app, .ok ())

/-- One iteration of the loop of `run` after `getch()` returned `ch`; both
windows have the same height `height`. -/
def dispatch (fs : FileSystem) (height : Int) (ch : Int) (app : Application) :
    Application × Except Fault Unit :=
  if ch = KEY_TAB then ({ app with browserFocus := !app.browserFocus }, .ok ())
  else if ch = KEY_UP then
    if app.browserFocus then ({ app with browser := app.browser.moveUp height }, .ok ())
    else ({ app with viewer := app.viewer.scrollUp height }, .ok ())
  else if ch = KEY_DOWN then
    if app.browserFocus then ({ app with browser := app.browser.moveDown height }, .ok ())
    else ({ app with viewer := app.viewer.scrollDown height }, .ok ())
  else if ch = KEY_ENTER_LF then onEnter fs height app
  else if ch = KEY_PPAGE then ({ app with viewer := app.viewer.pageUp height }, .ok ())
  else if ch = KEY_NPAGE then ({ app with viewer := app.viewer.pageDown height }, .ok ())
  else if ch = KEY_q ∨ ch = KEY_Q then ({ app with running := false }, .ok ())
  else (app, .ok ())

end Application

/-! ## Concrete inputs -/

/-- A small filesystem: `/home` holds `b.txt` (5 bytes), the directory `A`
(which cannot be opened) and `a.py` (2 bytes, two lines). -/
def exFs : FileSystem where
  listDir p :=
    if p = "/home" then
      .ok [⟨"b.txt", .regular, 5⟩, ⟨"A", .directory, 0⟩, ⟨"a.py", .regular, 2⟩]
    else if p = "/" then .ok [⟨"home", .directory, 0⟩]
    else if p = "/home/A" then .error ⟨[], "Permission denied"⟩
    else .error ⟨[], "No such file or directory"⟩
  parentPath p :=
    if p = "/home/A" then "/home" else if p = "/home" ∨ p = "/" then "/" else ""
  joinPath p n := if p = "/" then p ++ n else p ++ "/" ++ n
  readLines p := if p = "/home/a.py" then some ["l1", "l2"] else none

/-- The filesystem `exFs`, except that `/home/A` can be opened and its
enumeration fails after the children `z.txt`, `sub` and `core` were handled. -/
def exFsPartial : FileSystem :=
  { exFs with
    listDir := fun p =>
      if p = "/home/A" then
        .error ⟨[⟨"z.txt", .regular, 7⟩, ⟨"sub", .directory, 0⟩, ⟨"core", .regular, 9⟩],
                "Input/output error"⟩
      else exFs.listDir p }

/-- The viewer after `/home/a.py` (two lines) was loaded and displayed in a
window of height 8, that is with 5 content rows. -/
def exViewer : FileViewer :=
  ((FileViewer.init.loadFile exFs.readLines "/home/a.py").2).display 8

/-- A viewer showing twelve lines in five rows, scrolled to line index 3. -/
def exViewerLong : FileViewer :=
  { filePath := "/home/long.txt", lines := List.replicate 12 "text", startLine := 3,
    maxDisplayLines := 5 }

/-- The browser started in `/home` and displayed in a window of height 8. -/
def exBrowser : FileBrowser := ((FileBrowser.init exFs "/home").1).display 8

/-- The browser of `exBrowser` after one `moveDown`: the directory `A` is
selected. -/
def exBrowserOnA : FileBrowser := exBrowser.moveDown 8

/-- The range `0 <= startLine <= max(0, L - H)` of the content pane, for a
viewer whose window shows `H` rows. -/
def ViewerInRange (H : Int) (v : FileViewer) : Prop :=
  v.maxDisplayLines = H ∧ 0 ≤ v.startLine ∧
    v.startLine ≤ max 0 ((v.lines.length : Int) - H)

/-- The viewport invariant of the directory pane for a window showing `H`
rows: `0 <= startIndex <= selectedIndex <= startIndex + H - 1`, with the
selection inside the listing. -/
def DirViewportInv (H : Int) (b : FileBrowser) : Prop :=
  0 ≤ b.startIndex ∧ b.startIndex ≤ b.selectedIndex ∧
    b.selectedIndex ≤ b.startIndex + H - 1 ∧
    b.selectedIndex < (b.entries.length : Int)

/-- A range is ordered by the comparison of `std::sort` when no element is
less than an earlier one. -/
def OrderedBy (l : List FileEntry) : Prop :=
  l.Pairwise (fun a c => entryLess c a = false)

/-- Specification side of the listing: the entry a child is shown as.  A
directory is always shown (size 0), a regular file is shown with its size
when its extension is supported, anything else is not shown. -/
def listedAs (c : DirChild) : Option FileEntry :=
  match c.kind with
  | .directory => some ⟨c.name, true, 0⟩
  | .regular =>
    if isSupported (extension c.name) then some ⟨c.name, false, c.size⟩ else none
  | .other => none


/-! ## Arithmetic of the machine integers -/

theorem wrapInt_of_range {x : Int} (h1 : -2147483648 ≤ x) (h2 : x ≤ 2147483647) :
    wrapInt x = x := by
  unfold wrapInt; omega

theorem toSizeT_of_nonneg {x : Int} (h1 : 0 ≤ x) (h2 : x ≤ 2147483647) :
    (toSizeT x : Int) = x := by
  unfold toSizeT; omega

theorem castInt_subSizeT {L : Nat} {H : Int} (hL : (L : Int) ≤ 2147483647)
    (h1 : 0 ≤ H) (h2 : H ≤ 2147483647) :
    castInt (subSizeT L (toSizeT H)) = (L : Int) - H := by
  unfold castInt wrapInt subSizeT toSizeT; omega

/-- The `size_t` comparison of `scrollDown` agrees with the comparison of the
integers as soon as the file is at least as long as the window. -/
theorem scrollDown_test_of_long {L : Nat} {s H : Int} (hL : (L : Int) ≤ 2147483647)
    (hH0 : 0 ≤ H) (hHL : H ≤ (L : Int)) (hs0 : 0 ≤ s) (hs : s ≤ 2147483647) :
    toSizeT s < subSizeT L (toSizeT H) ↔ s < (L : Int) - H := by
  unfold subSizeT toSizeT; omega

/-- The `size_t` comparison of `scrollDown` always succeeds when the file is
shorter than the window: the difference wraps around. -/
theorem scrollDown_test_of_short {L : Nat} {s H : Int} (hH : H ≤ 2147483647)
    (hLH : (L : Int) < H) (hs0 : 0 ≤ s) (hs : s ≤ 2147483647) :
    toSizeT s < subSizeT L (toSizeT H) := by
  unfold subSizeT toSizeT; omega

/-! ## FileViewer: scrolling -/

/-- When the file has at least as many lines as the window has rows, each of
the four scrolling actions keeps `startLine` in range (and keeps the lines). -/
theorem ViewerAction.apply_inRange_of_long (height : Int) (a : ViewerAction)
    (v : FileViewer) (hh1 : 1 ≤ height - 3) (hh2 : height - 3 ≤ 2147483647)
    (hL : (v.lines.length : Int) ≤ 2147483647)
    (hlong : height - 3 ≤ (v.lines.length : Int))
    (hv : ViewerInRange (height - 3) v) :
    ViewerInRange (height - 3) (a.apply height v) ∧ (a.apply height v).lines = v.lines := by
  obtain ⟨fp, ls, s, m⟩ := v
  obtain ⟨hm, hs0, hs⟩ := hv
  simp only at hm hs0 hs hL hlong
  subst hm
  have hw : wrapInt (height - 3) = height - 3 := wrapInt_of_range (by omega) hh2
  cases a
  · simp only [ViewerAction.apply, FileViewer.scrollUp]
    split
    · have e : wrapInt (s - 1) = s - 1 := wrapInt_of_range (by omega) (by omega)
      simp only [FileViewer.display, e, hw, ViewerInRange]
      exact ⟨⟨trivial, by omega, by omega⟩, trivial⟩
    · exact ⟨⟨rfl, hs0, hs⟩, rfl⟩
  · simp only [ViewerAction.apply, FileViewer.scrollDown]
    by_cases hc : toSizeT s < subSizeT ls.length (toSizeT (height - 3))
    · have hc2 := (scrollDown_test_of_long hL (by omega) hlong hs0 (by omega)).1 hc
      have e : wrapInt (s + 1) = s + 1 := wrapInt_of_range (by omega) (by omega)
      rw [if_pos hc]
      simp only [FileViewer.display, e, hw, ViewerInRange]
      exact ⟨⟨trivial, by omega, by omega⟩, trivial⟩
    · rw [if_neg hc]
      exact ⟨⟨rfl, hs0, hs⟩, rfl⟩
  · have e : wrapInt (s - (height - 3)) = s - (height - 3) :=
      wrapInt_of_range (by omega) (by omega)
    simp only [ViewerAction.apply, FileViewer.pageUp, FileViewer.display, e, hw,
      ViewerInRange]
    exact ⟨⟨trivial, by omega, by omega⟩, trivial⟩
  · have e1 := castInt_subSizeT (H := height - 3) hL (by omega) (by omega)
    have e2 : wrapInt (s + (height - 3)) = s + (height - 3) :=
      wrapInt_of_range (by omega) (by omega)
    simp only [ViewerAction.apply, FileViewer.pageDown, FileViewer.display, e1, e2, hw,
      ViewerInRange]
    refine ⟨⟨trivial, ?_, ?_⟩, trivial⟩ <;> split <;> omega

/-- The range of `startLine` holds after every sequence of scrolling actions
when the file has at least as many lines as the window has rows. -/
theorem runViewer_inRange_of_long (height : Int) (as : List ViewerAction)
    (v : FileViewer) (hh1 : 1 ≤ height - 3) (hh2 : height - 3 ≤ 2147483647)
    (hL : (v.lines.length : Int) ≤ 2147483647)
    (hlong : height - 3 ≤ (v.lines.length : Int))
    (hv : ViewerInRange (height - 3) v) :
    ViewerInRange (height - 3) (runViewer height v as) := by
  induction as generalizing v with
  | nil => exact hv
  | cons a as ih =>
    have h := ViewerAction.apply_inRange_of_long height a v hh1 hh2 hL hlong hv
    have hlen : (a.apply height v).lines.length = v.lines.length := by rw [h.2]
    exact ih (a.apply height v) (by rw [hlen]; exact hL) (by rw [hlen]; exact hlong) h.1

/-- Whenever the file is shorter than the window, `scrollDown` increments
`startLine`, wherever it stands. -/
theorem FileViewer.scrollDown_of_short (height : Int) (v : FileViewer)
    (hH : v.maxDisplayLines ≤ 2147483647)
    (hshort : (v.lines.length : Int) < v.maxDisplayLines)
    (hs0 : 0 ≤ v.startLine) (hs : v.startLine < 2147483647) :
    (v.scrollDown height).startLine = v.startLine + 1 := by
  have hc := scrollDown_test_of_short hH hshort hs0 (by omega)
  have e : wrapInt (v.startLine + 1) = v.startLine + 1 :=
    wrapInt_of_range (by omega) (by omega)
  unfold FileViewer.scrollDown
  rw [if_pos hc]
  simp only [FileViewer.display, e]

/-- C1 (the code at the failing input): a file of two lines is loaded and
displayed in a window with five content rows, so `startLine = 0` and the
range of the claim is `0 <= startLine <= max(0, 2 - 5) = 0`.  One `scrollDown`
moves `startLine` to 1 and three of them move it to 3: the `size_t`
difference `lines.size() - maxDisplayLines` wraps around to `2^64 - 3` and
the guard of `scrollDown` never stops the scrolling. -/
theorem C1_scrollDown_short_file_leaves_range :
    exViewer.lines.length = 2 ∧ exViewer.maxDisplayLines = 5 ∧ exViewer.startLine = 0 ∧
    subSizeT exViewer.lines.length (toSizeT exViewer.maxDisplayLines)
      = 18446744073709551613 ∧
    (runViewer 8 exViewer [.scrollDown]).startLine = 1 ∧
    (runViewer 8 exViewer [.scrollDown, .scrollDown, .scrollDown]).startLine = 3 ∧
    ¬ ((runViewer 8 exViewer [.scrollDown]).startLine
        ≤ max 0 ((exViewer.lines.length : Int) - exViewer.maxDisplayLines)) := by
  decide

/-- C2 (counterexample): after `/home/a.py` was loaded with lines `l1`, `l2`,
`loadFile` of a path that cannot be opened returns false but does not keep
the state: the lines are gone and `filePath` is the new path. -/
theorem C2_failed_load_clears_content :
    exViewer.lines = ["l1", "l2"] ∧ exFs.readLines "/home/missing" = none ∧
    (exViewer.loadFile exFs.readLines "/home/missing").1 = false ∧
    (exViewer.loadFile exFs.readLines "/home/missing").2 ≠ exViewer ∧
    (exViewer.loadFile exFs.readLines "/home/missing").2.lines = [] ∧
    (exViewer.loadFile exFs.readLines "/home/missing").2.filePath = "/home/missing" := by
  decide

/-- C2 (amended): for every viewer state and every path that cannot be
opened, `loadFile` returns false and leaves the viewer with `filePath` set to
that path, no lines and `startLine = 0`; only `maxDisplayLines` is kept. -/
theorem C2_loadFile_failure_resets (readLines : String → Option (List String))
    (path : String) (v : FileViewer) (hfail : readLines path = none) :
    v.loadFile readLines path
      = (false, { filePath := path, lines := [], startLine := 0,
                  maxDisplayLines := v.maxDisplayLines }) := by
  simp only [FileViewer.loadFile, hfail]

/-- C2 (witness): the amended statement at the viewer showing `/home/a.py`
and the missing path `/home/missing`. -/
theorem C2_loadFile_failure_resets_witness :
    exFs.readLines "/home/missing" = none ∧
    exViewer.loadFile exFs.readLines "/home/missing"
      = (false, { filePath := "/home/missing", lines := [], startLine := 0,
                  maxDisplayLines := exViewer.maxDisplayLines }) :=
  ⟨by decide, C2_loadFile_failure_resets exFs.readLines "/home/missing" exViewer (by decide)⟩

/-- C8: for a viewer with `L` lines, `H >= 0` rows and `startLine` in
`[0, max(0, L - H)]`, where `L`, `H` and `startLine + H` are representable as
`int`, `pageDown` sets `startLine` to `min(startLine + H, max(0, L - H))` and
`pageUp` sets it to `max(startLine - H, 0)`; both are `startLine ± H` clamped
into `[0, max(0, L - H)]`. -/
theorem C8_page_scroll_is_clamped_jump (height : Int) (v : FileViewer)
    (hL : (v.lines.length : Int) ≤ 2147483647)
    (hH0 : 0 ≤ v.maxDisplayLines) (hH : v.maxDisplayLines ≤ 2147483647)
    (hs0 : 0 ≤ v.startLine)
    (hs : v.startLine ≤ max 0 ((v.lines.length : Int) - v.maxDisplayLines))
    (hsum : v.startLine + v.maxDisplayLines ≤ 2147483647) :
    (v.pageDown height).startLine
        = min (v.startLine + v.maxDisplayLines)
            (max 0 ((v.lines.length : Int) - v.maxDisplayLines)) ∧
    (v.pageUp height).startLine = max (v.startLine - v.maxDisplayLines) 0 ∧
    (v.pageDown height).startLine
        = max 0 (min (v.startLine + v.maxDisplayLines)
            (max 0 ((v.lines.length : Int) - v.maxDisplayLines))) ∧
    (v.pageUp height).startLine
        = max 0 (min (v.startLine - v.maxDisplayLines)
            (max 0 ((v.lines.length : Int) - v.maxDisplayLines))) := by
  have e1 := castInt_subSizeT hL hH0 hH
  have e2 : wrapInt (v.startLine + v.maxDisplayLines) = v.startLine + v.maxDisplayLines :=
    wrapInt_of_range (by omega) hsum
  have e3 : wrapInt (v.startLine - v.maxDisplayLines) = v.startLine - v.maxDisplayLines :=
    wrapInt_of_range (by omega) (by omega)
  simp only [FileViewer.pageDown, FileViewer.pageUp, FileViewer.display, e1, e2, e3]
  refine ⟨?_, ?_, ?_, ?_⟩
  · split <;> omega
  · omega
  · split <;> omega
  · omega

/-- C8 (witness): twelve lines, five rows, `startLine = 3`: `pageDown` goes to
`min(8, 7) = 7` and `pageUp` to `max(-2, 0) = 0`. -/
theorem C8_page_scroll_is_clamped_jump_witness :
    (exViewerLong.pageDown 8).startLine = 7 ∧ (exViewerLong.pageUp 8).startLine = 0 :=
  have h := C8_page_scroll_is_clamped_jump 8 exViewerLong (by decide) (by decide)
    (by decide) (by decide) (by decide) (by decide)
  ⟨h.1.trans (by decide), h.2.1.trans (by decide)⟩

/-! ## FileBrowser: entering a directory that cannot be listed -/

theorem FileBrowser.entries_nonempty_of_get? (b : FileBrowser) (i : Nat) (e : FileEntry)
    (hsel : b.entries.get? i = some e) : b.entries.isEmpty = false := by
  cases hb : b.entries with
  | nil => rw [hb] at hsel; simp at hsel
  | cons x xs => rfl

/-- What `enter` does on a directory entry whose target cannot be listed. -/
theorem FileBrowser.enter_directory_error (fs : FileSystem) (height : Int)
    (b : FileBrowser) (selected : FileEntry) (f : ListFailure)
    (hsel : b.entries.get? (toSizeT b.selectedIndex) = some selected)
    (hdir : selected.isDirectory = true)
    (hfail : fs.listDir (FileBrowser.enterTarget fs b.currentPath selected.name)
      = .error f) :
    b.enter fs height
      = ({ currentPath := FileBrowser.enterTarget fs b.currentPath selected.name,
           entries := f.visited.foldl pushChild [⟨"..", true, 0⟩],
           selectedIndex := 0, startIndex := 0,
           maxDisplayEntries := b.maxDisplayEntries },
         .error (.filesystemError f.what)) := by
  have hne := b.entries_nonempty_of_get? _ _ hsel
  simp only [FileBrowser.enter, hne, hsel, hdir, FileBrowser.refreshEntries, hfail]
  rfl

/-! ## The order of `std::sort` and the listing -/

theorem bytesLt_irrefl (a : List Nat) : bytesLt a a = false := by
  induction a with
  | nil => rfl
  | cons x xs ih => simp [bytesLt, ih]

theorem bytesLt_trans : ∀ (a b c : List Nat), bytesLt a b = true → bytesLt b c = true →
    bytesLt a c = true
  | _, [], _, h, _ => by simp [bytesLt] at h
  | _, _ :: _, [], _, h => by simp [bytesLt] at h
  | [], _ :: _, _ :: _, _, _ => by simp [bytesLt]
  | x :: xs, y :: ys, z :: zs, h1, h2 => by
    simp only [bytesLt] at h1 h2 ⊢
    by_cases hxy : x < y
    · by_cases hyz : y < z
      · have : x < z := by omega
        simp [this]
      · have hzy : ¬ z < y := by
          intro hzy; simp [hyz, hzy] at h2
        have : x < z := by omega
        simp [this]
    · have hyx : ¬ y < x := by
        intro hyx; simp [hxy, hyx] at h1
      have hxy2 : x = y := by omega
      subst hxy2
      simp only [hxy, if_false] at h1
      by_cases hyz : x < z
      · simp [hyz]
      · have hzy : ¬ z < x := by
          intro hzy; simp [hyz, hzy] at h2
        simp only [hyz, hzy, if_false] at h2 ⊢
        exact bytesLt_trans xs ys zs h1 h2

theorem bytesLt_asymm (a b : List Nat) (h : bytesLt a b = true) : bytesLt b a = false := by
  cases hba : bytesLt b a with
  | false => rfl
  | true =>
    have := bytesLt_trans a b a h hba
    rw [bytesLt_irrefl] at this
    exact absurd this (by decide)

theorem bytesLt_total : ∀ (a b : List Nat), bytesLt a b = true ∨ a = b ∨ bytesLt b a = true
  | [], [] => by simp
  | [], _ :: _ => by simp [bytesLt]
  | _ :: _, [] => by simp [bytesLt]
  | x :: xs, y :: ys => by
    simp only [bytesLt]
    by_cases hxy : x < y
    · simp [hxy]
    · by_cases hyx : y < x
      · simp [hyx]
      · have : x = y := by omega
        subst this
        simp only [hxy, if_false]
        rcases bytesLt_total xs ys with h | h | h
        · exact Or.inl h
        · exact Or.inr (Or.inl (by rw [h]))
        · exact Or.inr (Or.inr h)

theorem entryLess_asymm (a b : FileEntry) (h : entryLess a b = true) : entryLess b a = false := by
  unfold entryLess at h ⊢
  cases ha : a.isDirectory <;> cases hb : b.isDirectory <;> simp [ha, hb] at h ⊢
  · exact bytesLt_asymm _ _ h
  · exact bytesLt_asymm _ _ h

theorem entryLess_trans (a b c : FileEntry) (h1 : entryLess a b = true)
    (h2 : entryLess b c = true) : entryLess a c = true := by
  unfold entryLess at h1 h2 ⊢
  cases ha : a.isDirectory <;> cases hb : b.isDirectory <;> cases hc : c.isDirectory <;>
    simp [ha, hb, hc] at h1 h2 ⊢
  · exact bytesLt_trans _ _ _ h1 h2
  · exact bytesLt_trans _ _ _ h1 h2



theorem insertEntry_perm (x : FileEntry) (l : List FileEntry) :
    (insertEntry x l).Perm (x :: l) := by
  induction l with
  | nil => exact List.Perm.refl _
  | cons y ys ih =>
    unfold insertEntry
    split
    · exact List.Perm.refl _
    · exact (List.Perm.cons y ih).trans (List.Perm.swap x y ys)

theorem stdSort_perm (l : List FileEntry) : (stdSort l).Perm l := by
  induction l with
  | nil => exact List.Perm.refl _
  | cons x xs ih =>
    unfold stdSort
    exact (insertEntry_perm x (stdSort xs)).trans (List.Perm.cons x ih)

theorem insertEntry_ordered (x : FileEntry) (l : List FileEntry) (h : OrderedBy l) :
    OrderedBy (insertEntry x l) := by
  induction l with
  | nil => exact List.pairwise_singleton _ _
  | cons y ys ih =>
    unfold OrderedBy at h ih ⊢
    rw [List.pairwise_cons] at h
    unfold insertEntry
    by_cases hxy : entryLess x y = true
    · rw [if_pos hxy]
      refine List.pairwise_cons.2 ⟨?_, List.pairwise_cons.2 h⟩
      intro z hz
      rcases List.mem_cons.1 hz with rfl | hz
      · exact entryLess_asymm _ _ hxy
      · cases hzx : entryLess z x with
        | false => rfl
        | true =>
          have := entryLess_trans z x y hzx hxy
          rw [h.1 z hz] at this
          exact absurd this (by decide)
    · rw [if_neg hxy]
      refine List.pairwise_cons.2 ⟨?_, ih h.2⟩
      intro z hz
      rcases List.mem_cons.1 ((insertEntry_perm x ys).mem_iff.1 hz) with rfl | hz
      · simpa using hxy
      · exact h.1 z hz

theorem stdSort_ordered (l : List FileEntry) : OrderedBy (stdSort l) := by
  induction l with
  | nil => exact List.Pairwise.nil
  | cons x xs ih => exact insertEntry_ordered x _ ih

theorem pushChild_eq (init : List FileEntry) (c : DirChild) :
    pushChild init c = init ++ (listedAs c).toList := by
  obtain ⟨n, k, sz⟩ := c
  cases k
  · simp [pushChild, listedAs]
  · by_cases h : isSupported (extension n) = true <;> simp [pushChild, listedAs, h]
  · simp [pushChild, listedAs]

theorem foldl_pushChild (children : List DirChild) (init : List FileEntry) :
    children.foldl pushChild init = init ++ children.filterMap listedAs := by
  induction children generalizing init with
  | nil => simp
  | cons c cs ih =>
    rw [List.foldl_cons, ih, pushChild_eq, List.filterMap_cons]
    cases listedAs c <;> simp

theorem buildEntries_eq (children : List DirChild) :
    buildEntries children = ⟨"..", true, 0⟩ :: stdSort (children.filterMap listedAs) := by
  unfold buildEntries
  rw [foldl_pushChild]
  rfl

theorem refreshEntries_entries (fs : FileSystem) (b : FileBrowser)
    (children : List DirChild) (hlist : fs.listDir b.currentPath = .ok children) :
    (b.refreshEntries fs).1.entries
      = ⟨"..", true, 0⟩ :: stdSort (children.filterMap listedAs) := by
  simp only [FileBrowser.refreshEntries, hlist, buildEntries_eq]

theorem refreshEntries_ok (fs : FileSystem) (b : FileBrowser)
    (children : List DirChild) (hlist : fs.listDir b.currentPath = .ok children) :
    (b.refreshEntries fs).2 = .ok () := by
  simp only [FileBrowser.refreshEntries, hlist]

theorem count_filterMap_listedAs (children : List DirChild) (e : FileEntry) :
    (children.filterMap listedAs).count e
      = children.countP (fun c => decide (listedAs c = some e)) := by
  induction children with
  | nil => rfl
  | cons c cs ih =>
    rw [List.filterMap_cons, List.countP_cons]
    cases hc : listedAs c with
    | none => simp [ih]
    | some x =>
      simp only [List.count_cons, ih, Option.some.injEq, beq_iff_eq]
      by_cases hx : x = e <;> simp [hx]

/-- C4: when the children of the current directory can be enumerated, in
whatever order, `refreshEntries` produces entries whose index 0 is the
synthetic directory entry `..`; in the remainder no file comes before a
directory, and two entries of the same kind are never in decreasing
byte-wise name order (the earlier name is less than the later one or has the
same bytes).  The children `b.txt` (file), `A` (directory), `a.py` (file)
give the names `..`, `A`, `a.py`, `b.txt`. -/
theorem C4_listing_order (fs : FileSystem) (b : FileBrowser) (children : List DirChild)
    (hlist : fs.listDir b.currentPath = .ok children) :
    (b.refreshEntries fs).1.entries.get? 0 = some ⟨"..", true, 0⟩ ∧
    (b.refreshEntries fs).1.entries.tail.Pairwise (fun a c =>
      (a.isDirectory = false → c.isDirectory = false) ∧
      (a.isDirectory = c.isDirectory →
        strLt c.name a.name = false ∧
        (strLt a.name c.name = true ∨ bytes a.name = bytes c.name))) ∧
    (buildEntries [⟨"b.txt", .regular, 5⟩, ⟨"A", .directory, 0⟩,
        ⟨"a.py", .regular, 2⟩]).map FileEntry.name = ["..", "A", "a.py", "b.txt"] := by
  rw [refreshEntries_entries fs b children hlist]
  refine ⟨rfl, ?_, by decide⟩
  refine List.Pairwise.imp ?_ (stdSort_ordered (children.filterMap listedAs))
  intro a c hca
  unfold entryLess at hca
  constructor
  · intro ha
    cases hc : c.isDirectory with
    | false => rfl
    | true => simp [ha, hc] at hca
  · intro hac
    have hlt : strLt c.name a.name = false := by simpa [hac] using hca
    refine ⟨hlt, ?_⟩
    rcases bytesLt_total (bytes a.name) (bytes c.name) with h | h | h
    · exact Or.inl h
    · exact Or.inr h
    · unfold strLt at hlt
      rw [h] at hlt
      exact absurd hlt (by decide)

/-- C4 (witness): the browser started in `/home`, whose children are
enumerated as `b.txt`, `A`, `a.py`. -/
theorem C4_listing_order_witness :
    exFs.listDir "/home"
      = .ok [⟨"b.txt", .regular, 5⟩, ⟨"A", .directory, 0⟩, ⟨"a.py", .regular, 2⟩] ∧
    ((FileBrowser.init exFs "/home").1.entries.get? 0 = some ⟨"..", true, 0⟩ ∧
     (FileBrowser.init exFs "/home").1.entries.tail.Pairwise (fun a c =>
      (a.isDirectory = false → c.isDirectory = false) ∧
      (a.isDirectory = c.isDirectory →
        strLt c.name a.name = false ∧
        (strLt a.name c.name = true ∨ bytes a.name = bytes c.name))) ∧
     (buildEntries [⟨"b.txt", .regular, 5⟩, ⟨"A", .directory, 0⟩,
        ⟨"a.py", .regular, 2⟩]).map FileEntry.name = ["..", "A", "a.py", "b.txt"]) ∧
    (FileBrowser.init exFs "/home").1.entries
      = [⟨"..", true, 0⟩, ⟨"A", true, 0⟩, ⟨"a.py", false, 2⟩, ⟨"b.txt", false, 5⟩] :=
  ⟨rfl,
   C4_listing_order exFs
     { currentPath := "/home", entries := [], selectedIndex := 0, startIndex := 0,
       maxDisplayEntries := 0 }
     [⟨"b.txt", .regular, 5⟩, ⟨"A", .directory, 0⟩, ⟨"a.py", .regular, 2⟩] rfl,
   by decide⟩

/-- C5: when the children of the current directory can be enumerated, the
entries after `..` are, up to order, exactly the children that are
directories (as directory entries) and the regular files whose extension is
in `initSupportedExtensions` (as file entries with their size), each as often
as it was enumerated.  So every directory is listed, a regular file is
listed if and only if its extension is in the set, and every listed entry
comes from such a child.  Membership is case-sensitive: `.txt` is in the set,
`.TXT` and the empty extension are not. -/
theorem C5_extension_filter (fs : FileSystem) (b : FileBrowser) (children : List DirChild)
    (hlist : fs.listDir b.currentPath = .ok children) :
    (b.refreshEntries fs).1.entries.tail.Perm (children.filterMap listedAs) ∧
    (∀ e, (b.refreshEntries fs).1.entries.tail.count e
        = children.countP (fun c => decide (listedAs c = some e))) ∧
    (∀ c ∈ children, c.kind = .directory →
        ⟨c.name, true, 0⟩ ∈ (b.refreshEntries fs).1.entries.tail) ∧
    (∀ c ∈ children, c.kind = .regular →
        (⟨c.name, false, c.size⟩ ∈ (b.refreshEntries fs).1.entries.tail
          ↔ extension c.name ∈ initSupportedExtensions)) ∧
    (∀ e ∈ (b.refreshEntries fs).1.entries.tail, ∃ c ∈ children,
        (c.kind = .directory ∧ e = ⟨c.name, true, 0⟩) ∨
        (c.kind = .regular ∧ extension c.name ∈ initSupportedExtensions ∧
          e = ⟨c.name, false, c.size⟩)) ∧
    (extension "notes.txt" = ".txt" ∧ ".txt" ∈ initSupportedExtensions) ∧
    (extension "NOTES.TXT" = ".TXT" ∧ ".TXT" ∉ initSupportedExtensions) ∧
    (extension "README" = "" ∧ "" ∉ initSupportedExtensions) ∧
    buildEntries [⟨"NOTES.TXT", .regular, 1⟩, ⟨"README", .regular, 2⟩,
        ⟨"notes.txt", .regular, 3⟩, ⟨"x.bin", .directory, 0⟩, ⟨"pipe.txt", .other, 0⟩]
      = [⟨"..", true, 0⟩, ⟨"x.bin", true, 0⟩, ⟨"notes.txt", false, 3⟩] := by
  rw [refreshEntries_entries fs b children hlist, List.tail_cons]
  have hperm := stdSort_perm (children.filterMap listedAs)
  have hmem : ∀ e, e ∈ stdSort (children.filterMap listedAs)
      ↔ ∃ c ∈ children, listedAs c = some e := by
    intro e
    rw [hperm.mem_iff, List.mem_filterMap]
  refine ⟨hperm, ?_, ?_, ?_, ?_, by decide, by decide, by decide, by decide⟩
  · intro e
    rw [hperm.count_eq, count_filterMap_listedAs]
  · intro c hc hk
    refine (hmem _).2 ⟨c, hc, ?_⟩
    simp [listedAs, hk]
  · intro c hc hk
    constructor
    · intro h
      obtain ⟨c2, _, h2⟩ := (hmem _).1 h
      unfold listedAs at h2
      cases hk2 : c2.kind <;> simp [hk2] at h2
      obtain ⟨hs, hn, _⟩ := h2
      rw [← hn]
      simpa [isSupported] using hs
    · intro h
      refine (hmem _).2 ⟨c, hc, ?_⟩
      simp [listedAs, hk, isSupported, h]
  · intro e he
    obtain ⟨c, hc, h⟩ := (hmem e).1 he
    refine ⟨c, hc, ?_⟩
    unfold listedAs at h
    cases hk : c.kind <;> simp [hk] at h
    · exact Or.inl ⟨rfl, h.symm⟩
    · exact Or.inr ⟨rfl, by simpa [isSupported] using h.1, h.2.symm⟩

/-- C5 (witness): the browser started in `/home`; both files have a
supported extension and are listed with their sizes next to the directory. -/
theorem C5_extension_filter_witness :
    exFs.listDir "/home"
      = .ok [⟨"b.txt", .regular, 5⟩, ⟨"A", .directory, 0⟩, ⟨"a.py", .regular, 2⟩] ∧
    (FileBrowser.init exFs "/home").1.entries.tail.Perm
      [⟨"b.txt", false, 5⟩, ⟨"A", true, 0⟩, ⟨"a.py", false, 2⟩] :=
  ⟨rfl,
   (C5_extension_filter exFs
     { currentPath := "/home", entries := [], selectedIndex := 0, startIndex := 0,
       maxDisplayEntries := 0 }
     [⟨"b.txt", .regular, 5⟩, ⟨"A", .directory, 0⟩, ⟨"a.py", .regular, 2⟩] rfl).1⟩

theorem buildEntries_length_pos (children : List DirChild) :
    1 ≤ (buildEntries children).length := by
  rw [buildEntries_eq]; simp

theorem buildEntries_length_le (children : List DirChild) :
    (buildEntries children).length ≤ children.length + 1 := by
  rw [buildEntries_eq, List.length_cons, (stdSort_perm _).length_eq]
  exact Nat.succ_le_succ (List.length_filterMap_le _ _)

/-- What `enter` does on a directory entry whose target can be listed. -/
theorem FileBrowser.enter_directory_ok (fs : FileSystem) (height : Int)
    (b : FileBrowser) (selected : FileEntry) (children : List DirChild)
    (hsel : b.entries.get? (toSizeT b.selectedIndex) = some selected)
    (hdir : selected.isDirectory = true)
    (hok : fs.listDir (FileBrowser.enterTarget fs b.currentPath selected.name)
      = .ok children) :
    b.enter fs height
      = (FileBrowser.display height
          { currentPath := FileBrowser.enterTarget fs b.currentPath selected.name,
            entries := buildEntries children, selectedIndex := 0, startIndex := 0,
            maxDisplayEntries := b.maxDisplayEntries },
         .ok false) := by
  have hne := b.entries_nonempty_of_get? _ _ hsel
  have hpos := buildEntries_length_pos children
  have hcmp : ¬ (toSizeT 0 ≥ (buildEntries children).length) := by
    unfold toSizeT; omega
  simp only [FileBrowser.enter, hne, hsel, hdir, FileBrowser.refreshEntries, hok, hcmp]
  rfl

/-- What `enter` does on a file entry. -/
theorem FileBrowser.enter_file (fs : FileSystem) (height : Int)
    (b : FileBrowser) (selected : FileEntry)
    (hsel : b.entries.get? (toSizeT b.selectedIndex) = some selected)
    (hfile : selected.isDirectory = false) :
    b.enter fs height = (b, .ok true) := by
  have hne := b.entries_nonempty_of_get? _ _ hsel
  simp only [FileBrowser.enter, hne, hsel, hfile]
  rfl

/-! ## FileBrowser: the pane after a failed `enter` -/

theorem partialEntries_length_pos (visited : List DirChild) :
    1 ≤ (visited.foldl pushChild [⟨"..", true, 0⟩]).length := by
  rw [foldl_pushChild]; simp

theorem partialEntries_length_le (visited : List DirChild) :
    (visited.foldl pushChild [⟨"..", true, 0⟩]).length ≤ visited.length + 1 := by
  rw [foldl_pushChild, List.length_append, List.length_singleton, Nat.add_comm]
  exact Nat.succ_le_succ (List.length_filterMap_le _ _)

/-- C3 (counterexample): in `/home` with the directory `A` selected, and `A`
not enumerable, `enter` does report the failure (the `filesystem_error`
leaves `enter`), but the pane is not as before: `currentPath` is `/home/A`,
`entries` is the parent entry alone and `selectedIndex` went from 1 to 0. -/
theorem C3_failed_enter_changes_pane :
    exBrowserOnA.currentPath = "/home" ∧
    exBrowserOnA.entries.map FileEntry.name = ["..", "A", "a.py", "b.txt"] ∧
    exBrowserOnA.selectedIndex = 1 ∧
    exBrowserOnA.entries.get? (toSizeT exBrowserOnA.selectedIndex) = some ⟨"A", true, 0⟩ ∧
    exFs.listDir (exFs.joinPath "/home" "A") = .error ⟨[], "Permission denied"⟩ ∧
    (exBrowserOnA.enter exFs 8).2 = .error (.filesystemError "Permission denied") ∧
    (exBrowserOnA.enter exFs 8).1 ≠ exBrowserOnA ∧
    (exBrowserOnA.enter exFs 8).1.currentPath = "/home/A" ∧
    (exBrowserOnA.enter exFs 8).1.entries = [⟨"..", true, 0⟩] ∧
    (exBrowserOnA.enter exFs 8).1.selectedIndex = 0 :=
  ⟨by decide, by decide, by decide, by decide, rfl, rfl, by decide, by decide, by decide,
    by decide⟩

/-- C3 (amended): when the selected entry is a directory whose enumeration
fails, `enter` reports the failure to its caller (the `filesystem_error`
propagates) and the pane is left with `currentPath` set to the target,
`selectedIndex = startIndex = 0`, and `entries` holding the parent entry
followed, unsorted, by what the loop pushed for the children it handled
before the failure (the directories and the supported files among them), so
the parent entry alone when the directory could not be opened at all. -/
theorem C3_enter_unlistable_directory (fs : FileSystem) (height : Int) (b : FileBrowser)
    (selected : FileEntry) (f : ListFailure)
    (hsel : b.entries.get? (toSizeT b.selectedIndex) = some selected)
    (hdir : selected.isDirectory = true)
    (hfail : fs.listDir (FileBrowser.enterTarget fs b.currentPath selected.name)
      = .error f) :
    b.enter fs height
      = ({ currentPath := FileBrowser.enterTarget fs b.currentPath selected.name,
           entries := f.visited.foldl pushChild [⟨"..", true, 0⟩],
           selectedIndex := 0, startIndex := 0,
           maxDisplayEntries := b.maxDisplayEntries },
         .error (.filesystemError f.what)) ∧
    f.visited.foldl pushChild [⟨"..", true, 0⟩]
      = ⟨"..", true, 0⟩ :: f.visited.filterMap listedAs ∧
    (f.visited = [] → (b.enter fs height).1.entries = [⟨"..", true, 0⟩]) := by
  have he := FileBrowser.enter_directory_error fs height b selected f hsel hdir hfail
  refine ⟨he, foldl_pushChild _ _, ?_⟩
  intro hnil
  rw [he, hnil]
  rfl

/-- C3 (witness): in `/home` with the directory `A` selected, where the
enumeration of `A` fails after `z.txt`, `sub` and `core` were handled: the
pane is left in `/home/A` with the entries `..`, `z.txt`, `sub`, in that
order (`core` has no supported extension). -/
theorem C3_enter_unlistable_directory_witness :
    exBrowserOnA.enter exFsPartial 8
      = ({ currentPath := "/home/A",
           entries := [⟨"..", true, 0⟩, ⟨"z.txt", false, 7⟩, ⟨"sub", true, 0⟩],
           selectedIndex := 0, startIndex := 0, maxDisplayEntries := 5 },
         .error (.filesystemError "Input/output error")) :=
  (C3_enter_unlistable_directory exFsPartial 8 exBrowserOnA ⟨"A", true, 0⟩
    ⟨[⟨"z.txt", .regular, 7⟩, ⟨"sub", .directory, 0⟩, ⟨"core", .regular, 9⟩],
      "Input/output error"⟩
    (by decide) rfl rfl).1

/-! ## FileBrowser: selection and viewport -/

theorem FileBrowser.display_selectedIndex (height : Int) (b : FileBrowser) :
    (b.display height).selectedIndex = b.selectedIndex := by
  unfold FileBrowser.display
  simp only
  split
  · rfl
  · split <;> rfl

theorem FileBrowser.display_entries (height : Int) (b : FileBrowser) :
    (b.display height).entries = b.entries := by
  unfold FileBrowser.display
  simp only
  split
  · rfl
  · split <;> rfl

/-- The value `display` gives to `startIndex` when no `int` operation
overflows. -/
theorem FileBrowser.display_startIndex (height : Int) (b : FileBrowser)
    (hH1 : 1 ≤ height - 3) (h0 : 0 ≤ b.selectedIndex) (hs0 : 0 ≤ b.startIndex)
    (hfit : b.selectedIndex + (height - 3) ≤ 2147483647) :
    (b.display height).startIndex
      = if b.selectedIndex < b.startIndex then b.selectedIndex
        else if b.selectedIndex ≥ b.startIndex + (height - 3) then
          b.selectedIndex - (height - 3) + 1
        else b.startIndex := by
  have hw : wrapInt (height - 3) = height - 3 := wrapInt_of_range (by omega) (by omega)
  unfold FileBrowser.display
  simp only [hw]
  by_cases hlt : b.selectedIndex < b.startIndex
  · simp only [hlt, if_true]
  · have e1 : wrapInt (b.startIndex + (height - 3)) = b.startIndex + (height - 3) :=
      wrapInt_of_range (by omega) (by omega)
    have e2 : wrapInt (b.selectedIndex - (height - 3)) = b.selectedIndex - (height - 3) :=
      wrapInt_of_range (by omega) (by omega)
    have e3 : wrapInt (b.selectedIndex - (height - 3) + 1)
        = b.selectedIndex - (height - 3) + 1 :=
      wrapInt_of_range (by omega) (by omega)
    simp only [hlt, if_false, e1, e2, e3]
    split <;> rfl

/-- The `size_t` comparison of `moveDown` agrees with the comparison of the
integers for a selection inside a non-empty listing. -/
theorem moveDown_test {N : Nat} {s : Int} (hN1 : 1 ≤ N) (hN : (N : Int) ≤ 2147483647)
    (h0 : 0 ≤ s) (h1 : s < (N : Int)) :
    toSizeT s < subSizeT N 1 ↔ s < (N : Int) - 1 := by
  unfold subSizeT toSizeT; omega

theorem FileBrowser.moveUp_selectedIndex (height : Int) (b : FileBrowser)
    (h1 : b.selectedIndex ≤ 2147483647) :
    (b.moveUp height).selectedIndex
      = if 0 < b.selectedIndex then b.selectedIndex - 1 else b.selectedIndex := by
  unfold FileBrowser.moveUp
  by_cases h : b.selectedIndex > 0
  · have e : wrapInt (b.selectedIndex - 1) = b.selectedIndex - 1 :=
      wrapInt_of_range (by omega) (by omega)
    rw [if_pos h, if_pos h, FileBrowser.display_selectedIndex, e]
  · rw [if_neg h, if_neg h]

theorem FileBrowser.moveDown_selectedIndex (height : Int) (b : FileBrowser)
    (hN1 : 1 ≤ b.entries.length) (hN : (b.entries.length : Int) ≤ 2147483647)
    (h0 : 0 ≤ b.selectedIndex) (h1 : b.selectedIndex < (b.entries.length : Int)) :
    (b.moveDown height).selectedIndex
      = if b.selectedIndex < (b.entries.length : Int) - 1 then b.selectedIndex + 1
        else b.selectedIndex := by
  unfold FileBrowser.moveDown
  by_cases h : toSizeT b.selectedIndex < subSizeT b.entries.length 1
  · have h2 := (moveDown_test hN1 hN h0 h1).1 h
    have e : wrapInt (b.selectedIndex + 1) = b.selectedIndex + 1 :=
      wrapInt_of_range (by omega) (by omega)
    rw [if_pos h, if_pos h2, FileBrowser.display_selectedIndex, e]
  · have h2 : ¬ b.selectedIndex < (b.entries.length : Int) - 1 :=
      fun h3 => h ((moveDown_test hN1 hN h0 h1).2 h3)
    rw [if_neg h, if_neg h2]

theorem FileBrowser.moveUp_entries (height : Int) (b : FileBrowser) :
    (b.moveUp height).entries = b.entries := by
  unfold FileBrowser.moveUp
  split
  · rw [FileBrowser.display_entries]
  · rfl

theorem FileBrowser.moveDown_entries (height : Int) (b : FileBrowser) :
    (b.moveDown height).entries = b.entries := by
  unfold FileBrowser.moveDown
  split
  · rw [FileBrowser.display_entries]
  · rfl

/-- Both moves keep the listing and keep the selection inside it. -/
theorem runBrowser_moves (fs : FileSystem) (height : Int) (as : List BrowserAction)
    (b : FileBrowser) (hmoves : ∀ a ∈ as, a ≠ BrowserAction.enter)
    (hN1 : 1 ≤ b.entries.length) (hN : (b.entries.length : Int) ≤ 2147483647)
    (h0 : 0 ≤ b.selectedIndex) (h1 : b.selectedIndex < (b.entries.length : Int)) :
    (runBrowser fs height b as).entries = b.entries ∧
    0 ≤ (runBrowser fs height b as).selectedIndex ∧
    (runBrowser fs height b as).selectedIndex < (b.entries.length : Int) := by
  induction as generalizing b with
  | nil => exact ⟨rfl, h0, h1⟩
  | cons a as ih =>
    have hrest : ∀ x ∈ as, x ≠ BrowserAction.enter :=
      fun x hx => hmoves x (List.mem_cons_of_mem _ hx)
    have hstep : (a.apply fs height b).entries = b.entries ∧
        0 ≤ (a.apply fs height b).selectedIndex ∧
        (a.apply fs height b).selectedIndex < (b.entries.length : Int) := by
      cases a with
      | moveUp =>
        have e := FileBrowser.moveUp_selectedIndex height b (by omega)
        refine ⟨FileBrowser.moveUp_entries height b, ?_, ?_⟩ <;>
          simp only [BrowserAction.apply, e] <;> split <;> omega
      | moveDown =>
        have e := FileBrowser.moveDown_selectedIndex height b hN1 hN h0 h1
        refine ⟨FileBrowser.moveDown_entries height b, ?_, ?_⟩ <;>
          simp only [BrowserAction.apply, e] <;> split <;> omega
      | enter => exact absurd rfl (hmoves _ (List.mem_cons_self _ _))
    have hlen : (a.apply fs height b).entries.length = b.entries.length := by rw [hstep.1]
    have := ih (a.apply fs height b) hrest (by rw [hlen]; exact hN1)
      (by rw [hlen]; exact hN) hstep.2.1 (by rw [hlen]; exact hstep.2.2)
    rw [hstep.1] at this
    exact this

/-- C6: for a non-empty listing of length `N` (representable as `int`) and a
selection in `[0, N-1]`: after every finite sequence of `moveUp` / `moveDown`
the listing is the same and the selection is in `[0, N-1]`; one action moves
the selection by at most 1; `moveUp` at 0 and `moveDown` at `N-1` change
nothing (no wrap); otherwise `moveUp` decrements and `moveDown` increments the
selection by exactly 1. -/
theorem C6_selection_bounds (fs : FileSystem) (height : Int) (b : FileBrowser)
    (as : List BrowserAction) (hmoves : ∀ a ∈ as, a ≠ BrowserAction.enter)
    (hN1 : 1 ≤ b.entries.length) (hN : (b.entries.length : Int) ≤ 2147483647)
    (h0 : 0 ≤ b.selectedIndex) (h1 : b.selectedIndex < (b.entries.length : Int)) :
    ((runBrowser fs height b as).entries = b.entries ∧
      0 ≤ (runBrowser fs height b as).selectedIndex ∧
      (runBrowser fs height b as).selectedIndex ≤ (b.entries.length : Int) - 1) ∧
    (|(b.moveUp height).selectedIndex - b.selectedIndex| ≤ 1 ∧
      |(b.moveDown height).selectedIndex - b.selectedIndex| ≤ 1) ∧
    (b.selectedIndex = 0 → b.moveUp height = b) ∧
    (b.selectedIndex = (b.entries.length : Int) - 1 → b.moveDown height = b) ∧
    (0 < b.selectedIndex → (b.moveUp height).selectedIndex = b.selectedIndex - 1) ∧
    (b.selectedIndex < (b.entries.length : Int) - 1 →
      (b.moveDown height).selectedIndex = b.selectedIndex + 1) := by
  have hrun := runBrowser_moves fs height as b hmoves hN1 hN h0 h1
  have eu := FileBrowser.moveUp_selectedIndex height b (by omega)
  have ed := FileBrowser.moveDown_selectedIndex height b hN1 hN h0 h1
  refine ⟨⟨hrun.1, hrun.2.1, by omega⟩, ⟨?_, ?_⟩, ?_, ?_, ?_, ?_⟩
  · rw [eu, abs_le]; split <;> omega
  · rw [ed, abs_le]; split <;> omega
  · intro h
    unfold FileBrowser.moveUp
    rw [if_neg (by omega)]
  · intro h
    unfold FileBrowser.moveDown
    rw [if_neg (fun hc => by
      have := (moveDown_test hN1 hN h0 h1).1 hc
      omega)]
  · intro h
    rw [eu, if_pos h]
  · intro h
    rw [ed, if_pos h]

/-- C6 (witness): the browser of `/home` (four entries) with index 1
selected, and the moves up, up, down, down, down, down. -/
theorem C6_selection_bounds_witness :
    (runBrowser exFs 8 exBrowserOnA
        [.moveUp, .moveUp, .moveDown, .moveDown, .moveDown, .moveDown]).selectedIndex = 3 ∧
    (exBrowser.moveUp 8 = exBrowser) ∧
    ((exBrowserOnA.moveDown 8).selectedIndex = 2) :=
  have h := C6_selection_bounds exFs 8 exBrowserOnA
    [.moveUp, .moveUp, .moveDown, .moveDown, .moveDown, .moveDown]
    (by decide) (by decide) (by decide) (by decide) (by decide)
  ⟨by decide, by decide, h.2.2.2.2.2 (by decide)⟩

/-- The viewport invariant holds after `display` whenever the selection is
inside the listing, `startIndex >= 0` and `selectedIndex + H` fits in `int`. -/
theorem FileBrowser.display_inv (height : Int) (b : FileBrowser)
    (hH1 : 1 ≤ height - 3) (h0 : 0 ≤ b.selectedIndex)
    (h1 : b.selectedIndex < (b.entries.length : Int)) (hs0 : 0 ≤ b.startIndex)
    (hfit : b.selectedIndex + (height - 3) ≤ 2147483647) :
    DirViewportInv (height - 3) (b.display height) := by
  have e := FileBrowser.display_startIndex height b hH1 h0 hs0 hfit
  unfold DirViewportInv
  rw [FileBrowser.display_selectedIndex, FileBrowser.display_entries, e]
  split
  · omega
  · split <;> omega

/-- The state `enter` leaves behind, in each of its paths. -/
theorem FileBrowser.enter_state (fs : FileSystem) (height : Int) (b : FileBrowser) :
    (b.enter fs height).1 = b ∨
    (∃ p f, fs.listDir p = .error f ∧
      (b.enter fs height).1
        = { currentPath := p, entries := f.visited.foldl pushChild [⟨"..", true, 0⟩],
            selectedIndex := 0, startIndex := 0,
            maxDisplayEntries := b.maxDisplayEntries }) ∨
    (∃ p children, fs.listDir p = .ok children ∧
      (b.enter fs height).1
        = FileBrowser.display height
            { currentPath := p, entries := buildEntries children, selectedIndex := 0,
              startIndex := 0, maxDisplayEntries := b.maxDisplayEntries }) := by
  cases hsel : b.entries.get? (toSizeT b.selectedIndex) with
  | none =>
    left
    unfold FileBrowser.enter
    split
    · rfl
    · rw [hsel]
  | some selected =>
    cases hdir : selected.isDirectory with
    | false =>
      left
      rw [FileBrowser.enter_file fs height b selected hsel hdir]
    | true =>
      cases hl : fs.listDir (FileBrowser.enterTarget fs b.currentPath selected.name) with
      | error f =>
        right; left
        rw [FileBrowser.enter_directory_error fs height b selected f hsel hdir hl]
        exact ⟨_, f, hl, rfl⟩
      | ok children =>
        right; right
        rw [FileBrowser.enter_directory_ok fs height b selected children hsel hdir hl]
        exact ⟨_, children, hl, rfl⟩

/-- One action keeps the viewport invariant, as long as listings are short
enough for `selectedIndex + H` to fit in `int`. -/
theorem BrowserAction.apply_inv (fs : FileSystem) (height : Int) (a : BrowserAction)
    (b : FileBrowser) (hH1 : 1 ≤ height - 3) (hH2 : height - 3 ≤ 2147483647)
    (hfs : ∀ p children, fs.listDir p = .ok children →
      (children.length : Int) + (height - 3) ≤ 2147483647)
    (hfe : ∀ p f, fs.listDir p = .error f →
      (f.visited.length : Int) + (height - 3) ≤ 2147483647)
    (hinv : DirViewportInv (height - 3) b)
    (hlen : (b.entries.length : Int) + (height - 3) ≤ 2147483648) :
    DirViewportInv (height - 3) (a.apply fs height b) ∧
    ((a.apply fs height b).entries.length : Int) + (height - 3) ≤ 2147483648 := by
  obtain ⟨hs0, hle, hhi, hlt⟩ := hinv
  cases a with
  | moveUp =>
    simp only [BrowserAction.apply]
    refine ⟨?_, by rw [FileBrowser.moveUp_entries]; exact hlen⟩
    unfold FileBrowser.moveUp
    split
    · have e : wrapInt (b.selectedIndex - 1) = b.selectedIndex - 1 :=
        wrapInt_of_range (by omega) (by omega)
      rw [e]
      exact FileBrowser.display_inv height _ hH1 (by simp only; omega)
        (by simp only; omega) hs0 (by simp only; omega)
    · exact ⟨hs0, hle, hhi, hlt⟩
  | moveDown =>
    simp only [BrowserAction.apply]
    refine ⟨?_, by rw [FileBrowser.moveDown_entries]; exact hlen⟩
    unfold FileBrowser.moveDown
    by_cases hc : toSizeT b.selectedIndex < subSizeT b.entries.length 1
    · have hc2 := (moveDown_test (N := b.entries.length) (by omega) (by omega)
        (by omega) hlt).1 hc
      have e : wrapInt (b.selectedIndex + 1) = b.selectedIndex + 1 :=
        wrapInt_of_range (by omega) (by omega)
      rw [if_pos hc, e]
      exact FileBrowser.display_inv height _ hH1 (by simp only; omega)
        (by simp only; omega) hs0 (by simp only; omega)
    · rw [if_neg hc]
      exact ⟨hs0, hle, hhi, hlt⟩
  | enter =>
    simp only [BrowserAction.apply]
    rcases FileBrowser.enter_state fs height b with h | ⟨p, f, hl, h⟩ | ⟨p, children, hl, h⟩
    · rw [h]
      exact ⟨⟨hs0, hle, hhi, hlt⟩, hlen⟩
    · rw [h]
      have hpos := partialEntries_length_pos f.visited
      have hle2 := partialEntries_length_le f.visited
      have hfit := hfe p f hl
      refine ⟨⟨by simp, by simp, by simp only; omega, by simp only; omega⟩, ?_⟩
      simp only
      omega
    · rw [h]
      have hpos := buildEntries_length_pos children
      have hle2 := buildEntries_length_le children
      have hfit := hfs p children hl
      refine ⟨FileBrowser.display_inv height _ hH1 (by simp) (by simp only; omega)
        (by simp) (by simp only; omega), ?_⟩
      rw [FileBrowser.display_entries]
      simp only
      omega

theorem runBrowser_inv (fs : FileSystem) (height : Int) (as : List BrowserAction)
    (b : FileBrowser) (hH1 : 1 ≤ height - 3) (hH2 : height - 3 ≤ 2147483647)
    (hfs : ∀ p children, fs.listDir p = .ok children →
      (children.length : Int) + (height - 3) ≤ 2147483647)
    (hfe : ∀ p f, fs.listDir p = .error f →
      (f.visited.length : Int) + (height - 3) ≤ 2147483647)
    (hinv : DirViewportInv (height - 3) b)
    (hlen : (b.entries.length : Int) + (height - 3) ≤ 2147483648) :
    DirViewportInv (height - 3) (runBrowser fs height b as) := by
  induction as generalizing b with
  | nil => exact hinv
  | cons a as ih =>
    have h := BrowserAction.apply_inv fs height a b hH1 hH2 hfs hfe hinv hlen
    exact ih (a.apply fs height b) h.1 h.2

/-- The browser right after its construction and first `display` satisfies
the viewport invariant. -/
theorem FileBrowser.init_inv (fs : FileSystem) (height : Int) (cwd : String)
    (hH1 : 1 ≤ height - 3) (hH2 : height - 3 ≤ 2147483647)
    (hfs : ∀ p children, fs.listDir p = .ok children →
      (children.length : Int) + (height - 3) ≤ 2147483647)
    (hfe : ∀ p f, fs.listDir p = .error f →
      (f.visited.length : Int) + (height - 3) ≤ 2147483647) :
    DirViewportInv (height - 3) ((FileBrowser.init fs cwd).1.display height) ∧
    ((((FileBrowser.init fs cwd).1.display height).entries.length : Int)
      + (height - 3) ≤ 2147483648) := by
  rw [FileBrowser.display_entries]
  cases hl : fs.listDir cwd with
  | error f =>
    have hpos := partialEntries_length_pos f.visited
    have hle2 := partialEntries_length_le f.visited
    have hfit := hfe cwd f hl
    have e : (FileBrowser.init fs cwd).1
        = { currentPath := cwd, entries := f.visited.foldl pushChild [⟨"..", true, 0⟩],
            selectedIndex := 0, startIndex := 0, maxDisplayEntries := 0 } := by
      simp only [FileBrowser.init, FileBrowser.refreshEntries, hl]
    rw [e]
    refine ⟨FileBrowser.display_inv height _ hH1 (by simp) (by simp only; omega) (by simp)
      (by simp only; omega), ?_⟩
    simp only
    omega
  | ok children =>
    have hpos := buildEntries_length_pos children
    have hle2 := buildEntries_length_le children
    have hfit := hfs cwd children hl
    have hcmp : ¬ (toSizeT 0 ≥ (buildEntries children).length) := by
      unfold toSizeT; omega
    have e : (FileBrowser.init fs cwd).1
        = { currentPath := cwd, entries := buildEntries children, selectedIndex := 0,
            startIndex := 0, maxDisplayEntries := 0 } := by
      simp only [FileBrowser.init, FileBrowser.refreshEntries, hl, hcmp]
      rfl
    rw [e]
    refine ⟨FileBrowser.display_inv height _ hH1 (by simp) (by simp only; omega) (by simp)
      (by simp only; omega), ?_⟩
    simp only
    omega

/-- C7: let `H = height - 3 >= 1` be the number of rows, and let
`selectedIndex >= 0` (as it is for a selection inside a listing),
`startIndex >= 0` and `selectedIndex + H` representable as `int`.  The adjustment made by `display` gives
`0 <= startIndex' <= selectedIndex <= startIndex' + H - 1`; it keeps
`startIndex` when the selection was already in the window, sets it to
`selectedIndex` when the selection was above the window and to
`selectedIndex - H + 1` when it was below.  Consequently, when every
directory listing, complete or interrupted by a failure, is short enough for
these sums to fit in `int`, the invariant holds after every sequence of
`moveUp` / `moveDown` / `enter` from the initial state. -/
theorem C7_directory_viewport (fs : FileSystem) (height : Int) (cwd : String)
    (b : FileBrowser) (as : List BrowserAction)
    (hH1 : 1 ≤ height - 3)
    (h0 : 0 ≤ b.selectedIndex) (hs0 : 0 ≤ b.startIndex)
    (hfit : b.selectedIndex + (height - 3) ≤ 2147483647)
    (hfs : ∀ p children, fs.listDir p = .ok children →
      (children.length : Int) + (height - 3) ≤ 2147483647)
    (hfe : ∀ p f, fs.listDir p = .error f →
      (f.visited.length : Int) + (height - 3) ≤ 2147483647) :
    (0 ≤ (b.display height).startIndex ∧
      (b.display height).startIndex ≤ b.selectedIndex ∧
      b.selectedIndex ≤ (b.display height).startIndex + (height - 3) - 1) ∧
    ((b.display height).selectedIndex = b.selectedIndex ∧
      (b.display height).entries = b.entries) ∧
    (b.startIndex ≤ b.selectedIndex ∧ b.selectedIndex ≤ b.startIndex + (height - 3) - 1 →
      (b.display height).startIndex = b.startIndex) ∧
    (b.selectedIndex < b.startIndex → (b.display height).startIndex = b.selectedIndex) ∧
    (b.startIndex + (height - 3) - 1 < b.selectedIndex →
      (b.display height).startIndex = b.selectedIndex - (height - 3) + 1) ∧
    DirViewportInv (height - 3)
      (runBrowser fs height ((FileBrowser.init fs cwd).1.display height) as) := by
  have e := FileBrowser.display_startIndex height b hH1 h0 hs0 hfit
  have hinit := FileBrowser.init_inv fs height cwd hH1 (by omega) hfs hfe
  refine ⟨?_, ⟨FileBrowser.display_selectedIndex height b,
    FileBrowser.display_entries height b⟩, ?_, ?_, ?_,
    runBrowser_inv fs height as _ hH1 (by omega) hfs hfe hinit.1 hinit.2⟩
  · rw [e]
    split
    · omega
    · split <;> omega
  · intro h
    rw [e, if_neg (by omega), if_neg (by omega)]
  · intro h
    rw [e, if_pos h]
  · intro h
    rw [e, if_neg (by omega), if_pos (by omega)]

/-- C7 (witness): a window of height 5 (two rows) on `/home`.  With index 3
selected and `startIndex = 0` the adjustment gives `startIndex = 2`; and
after down, down, down, up, enter from the initial state the invariant
holds. -/
theorem C7_directory_viewport_witness :
    (FileBrowser.display 5
      { currentPath := "/home", entries := exBrowser.entries, selectedIndex := 3,
        startIndex := 0, maxDisplayEntries := 2 }).startIndex = 2 ∧
    DirViewportInv 2
      (runBrowser exFs 5 ((FileBrowser.init exFs "/home").1.display 5)
        [.moveDown, .moveDown, .moveDown, .moveUp, .enter]) ∧
    (runBrowser exFs 5 ((FileBrowser.init exFs "/home").1.display 5)
        [.moveDown, .moveDown, .moveDown]).startIndex = 2 :=
  have h := C7_directory_viewport exFs 5 "/home"
    { currentPath := "/home", entries := exBrowser.entries, selectedIndex := 3,
      startIndex := 0, maxDisplayEntries := 2 }
    [.moveDown, .moveDown, .moveDown, .moveUp, .enter]
    (by decide) (by decide) (by decide) (by decide)
    (by
      intro p children hl
      have hlen : children.length ≤ 3 := by
        simp only [exFs] at hl
        split at hl
        · cases hl; decide
        · split at hl
          · cases hl; decide
          · split at hl <;> cases hl
      omega)
    (by
      intro p f hl
      have hlen : f.visited.length = 0 := by
        simp only [exFs] at hl
        split at hl
        · cases hl
        · split at hl
          · cases hl
          · split at hl <;> cases hl <;> rfl
      omega)
  ⟨h.2.2.2.2.1 (by decide), h.2.2.2.2.2, by decide⟩

/-- When enumerations can only fail on opening the directory (no child was
visited), the bound on interrupted listings is no extra assumption: the
invariant holds from the initial state with the bound on complete listings
alone. -/
theorem runBrowser_inv_of_open_failures (fs : FileSystem) (height : Int) (cwd : String)
    (as : List BrowserAction) (hH1 : 1 ≤ height - 3) (hH2 : height - 3 ≤ 2147483647)
    (hfs : ∀ p children, fs.listDir p = .ok children →
      (children.length : Int) + (height - 3) ≤ 2147483647)
    (hopen : ∀ p f, fs.listDir p = .error f → f.visited = []) :
    DirViewportInv (height - 3)
      (runBrowser fs height ((FileBrowser.init fs cwd).1.display height) as) := by
  have hfe : ∀ p f, fs.listDir p = .error f →
      (f.visited.length : Int) + (height - 3) ≤ 2147483647 := by
    intro p f hl
    rw [hopen p f hl]
    simp only [List.length_nil]
    omega
  have hinit := FileBrowser.init_inv fs height cwd hH1 hH2 hfs hfe
  exact runBrowser_inv fs height as _ hH1 hH2 hfs hfe hinit.1 hinit.2

/-! ## FileBrowser: activating the selected entry -/

/-- C10: for every application state and both values of the focus flag,
dispatching `KEY_PPAGE` (`KEY_NPAGE`) replaces the viewer by
`pageUp` (`pageDown`) of the viewer and changes nothing else, so the
content pane is the same for both focus values and the directory pane, the
focus flag and the running flag are unchanged; nothing is thrown. -/
theorem C10_page_keys_focus_independent (fs : FileSystem) (height : Int)
    (app : Application) (focus : Bool) :
    Application.dispatch fs height KEY_PPAGE { app with browserFocus := focus }
      = ({ browser := app.browser, viewer := app.viewer.pageUp height,
           running := app.running, browserFocus := focus }, .ok ()) ∧
    Application.dispatch fs height KEY_NPAGE { app with browserFocus := focus }
      = ({ browser := app.browser, viewer := app.viewer.pageDown height,
           running := app.running, browserFocus := focus }, .ok ()) ∧
    (Application.dispatch fs height KEY_PPAGE { app with browserFocus := true }).1.viewer
      = (Application.dispatch fs height KEY_PPAGE { app with browserFocus := false }).1.viewer ∧
    (Application.dispatch fs height KEY_NPAGE { app with browserFocus := true }).1.viewer
      = (Application.dispatch fs height KEY_NPAGE { app with browserFocus := false }).1.viewer := by
  have hp : Application.dispatch fs height KEY_PPAGE
      = fun a => ({ a with viewer := a.viewer.pageUp height }, .ok ()) := by
    funext a
    simp [Application.dispatch, KEY_PPAGE, KEY_TAB, KEY_UP, KEY_DOWN, KEY_ENTER_LF]
  have hn : Application.dispatch fs height KEY_NPAGE
      = fun a => ({ a with viewer := a.viewer.pageDown height }, .ok ()) := by
    funext a
    simp [Application.dispatch, KEY_NPAGE, KEY_PPAGE, KEY_TAB, KEY_UP, KEY_DOWN,
      KEY_ENTER_LF]
  rw [hp, hn]
  exact ⟨rfl, rfl, rfl, rfl⟩

/-- C11: the application starts with the focus on the directory pane.
Dispatching Tab flips the focus flag and changes nothing else (both panes and
the running flag are kept, nothing is thrown), so two Tabs give back the
original application state.  Dispatching `KEY_UP` with the focus on the
directory pane is `moveUp` on the browser with the viewer unchanged; with the
focus on the content pane it is `scrollUp` on the viewer with the browser
unchanged. -/
theorem C11_focus_toggle_and_routing (fs : FileSystem) (height : Int) (cwd : String)
    (app : Application) :
    (Application.init fs height cwd).1.browserFocus = true ∧
    Application.dispatch fs height KEY_TAB app
      = ({ browser := app.browser, viewer := app.viewer, running := app.running,
           browserFocus := !app.browserFocus }, .ok ()) ∧
    (Application.dispatch fs height KEY_TAB
        (Application.dispatch fs height KEY_TAB app).1).1 = app ∧
    Application.dispatch fs height KEY_UP { app with browserFocus := true }
      = ({ browser := app.browser.moveUp height, viewer := app.viewer,
           running := app.running, browserFocus := true }, .ok ()) ∧
    Application.dispatch fs height KEY_UP { app with browserFocus := false }
      = ({ browser := app.browser, viewer := app.viewer.scrollUp height,
           running := app.running, browserFocus := false }, .ok ()) := by
  have ht : Application.dispatch fs height KEY_TAB
      = fun a => ({ a with browserFocus := !a.browserFocus }, .ok ()) := by
    funext a
    simp [Application.dispatch]
  have hu : Application.dispatch fs height KEY_UP
      = fun a =>
          if a.browserFocus then ({ a with browser := a.browser.moveUp height }, .ok ())
          else ({ a with viewer := a.viewer.scrollUp height }, .ok ()) := by
    funext a
    simp [Application.dispatch, KEY_UP, KEY_TAB]
  refine ⟨?_, ?_, ?_, ?_, ?_⟩
  · unfold Application.init
    split <;> rfl
  · rw [ht]
  · rw [ht]
    simp only [Bool.not_not]
  · rw [hu]
    rfl
  · rw [hu]
    rfl

end Ctv
